import Mathlib

/-!
Shallow embedding of `src/main.go` of the go-mvcc repository: an in-process
MVCC engine (versioned key-value store, transaction table, visibility).

Conventions of the embedding:
* Go `uint64` ids become `Nat`; the single arithmetic operation on one, the
  increment of `nextTransactionID`, is taken modulo `2^64`.
* `btree.Map[uint64, Transaction]` becomes an association list kept sorted by
  strictly increasing key (its iteration order); `btree.Set` becomes a
  duplicate-free list (for the `uint64` set the sorted order of the table
  iteration that builds it, for the `string` sets insertion order — the code
  only ever tests membership of those).
* `map[string][]Value` becomes an association list; reading a missing key
  yields `[]`, as the Go map read does, and creates no entry.
* A Go `panic` (the `assert`/`assertEq` helpers, a nil-pointer dereference, an
  out-of-range index) becomes the `ExecResult.fatal` outcome, carrying the
  message and the database as it stood when the panic fired.
-/

namespace GoMvcc

/-- `Value` of main.go: one version of a key; `txEndID = 0` means not yet
superseded. -/
structure Value where
  txStartID : Nat
  txEndID : Nat
  value : String
  deriving DecidableEq, Repr

/-- `TransactionState` of main.go. -/
inductive TransactionState where
  | inProgressTransaction
  | abortedTransaction
  | committedTransaction
  deriving DecidableEq, Repr

/-- `IsolationLevel` of main.go, in increasing strictness. -/
inductive IsolationLevel where
  | readUncommittedIsolation
  | readCommittedIsolation
  | repeatableReadIsolation
  | snapshotIsolation
  | serializableIsolation
  deriving DecidableEq, Repr

/-- The numeric value of the Go `iota` constant, used for the spec's ordering
of isolation levels by strictness. -/
def IsolationLevel.toNat : IsolationLevel → Nat
  | .readUncommittedIsolation => 0
  | .readCommittedIsolation => 1
  | .repeatableReadIsolation => 2
  | .snapshotIsolation => 3
  | .serializableIsolation => 4

/-- `Transaction` of main.go.  `inProgress` is the snapshot of in-progress
transaction ids taken at begin; `writeset`/`readset` track keys written/read. -/
structure Transaction where
  id : Nat
  isolation : IsolationLevel
  state : TransactionState
  inProgress : List Nat
  writeset : List String
  readset : List String
  deriving DecidableEq, Repr

/-- `strings.ToLower`, character by character over the string's data (the
library `String.toLower` recurses on byte positions, which the kernel cannot
evaluate; on the ASCII command words the two agree). -/
def lowerString (s : String) : String := ⟨s.data.map Char.toLower⟩

/-- Insert into a `btree.Set[string]` modelled as a duplicate-free list: no-op
when present, append otherwise (only membership is ever consulted). -/
def strSetInsert (s : List String) (k : String) : List String :=
  if s.contains k then s else s ++ [k]

/-- Lookup in the transaction table (`btree.Map.Get`). -/
def txGet (l : List (Nat × Transaction)) (i : Nat) : Option Transaction :=
  match l.find? (fun e => e.1 = i) with
  | some e => some e.2
  | none => none

/-- Insert/replace in the transaction table (`btree.Map.Set`), keeping the
list sorted by strictly increasing key. -/
def txSet (l : List (Nat × Transaction)) (i : Nat) (t : Transaction) :
    List (Nat × Transaction) :=
  match l with
  | [] => [(i, t)]
  | e :: rest =>
    if i < e.1 then (i, t) :: e :: rest
    else if i = e.1 then (i, t) :: rest
    else e :: txSet rest i t

/-- Read `store[key]` of the Go map: missing key reads as the empty slice. -/
def storeGet (s : List (String × List Value)) (k : String) : List Value :=
  match s.find? (fun e => e.1 = k) with
  | some e => e.2
  | none => []

/-- The in-place mutation of the versions of one key (`value := &store[key][i];
value.txEndID = ...`): rewrite the entry if present, touch nothing otherwise. -/
def storeStamp (s : List (String × List Value)) (k : String)
    (f : Value → Value) : List (String × List Value) :=
  s.map (fun e => if e.1 = k then (e.1, e.2.map f) else e)

/-- `store[key] = append(store[key], v)`: append to the entry, creating it when
the key is new. -/
def storeAppend (s : List (String × List Value)) (k : String) (v : Value) :
    List (String × List Value) :=
  if (s.find? (fun e => e.1 = k)).isSome then
    s.map (fun e => if e.1 = k then (e.1, e.2 ++ [v]) else e)
  else s ++ [(k, [v])]

/-- `Database` of main.go. -/
structure Database where
  defaultIsolation : IsolationLevel
  store : List (String × List Value)
  transactions : List (Nat × Transaction)
  nextTransactionID : Nat
  deriving DecidableEq, Repr

/-- `newDatabase` of main.go: default isolation ReadCommitted, empty store,
first valid transaction id 1 (0 means "unset"). -/
def newDatabase : Database :=
  { defaultIsolation := .readCommittedIsolation
    store := []
    transactions := []
    nextTransactionID := 1 }

/-- `Database.inProgress` of main.go: iterate the transaction table in key
order and collect the ids whose state is InProgress. -/
def Database.inProgressIds (d : Database) : List Nat :=
  (d.transactions.filter
    (fun e => e.2.state = TransactionState.inProgressTransaction)).map
    (fun e => e.1)

/-- `Database.newTransaction` of main.go: the new transaction takes the
database's default isolation, state InProgress, the next id, and the snapshot
of currently in-progress ids; the counter is bumped (uint64 arithmetic) and
the transaction registered.  Returns the transaction and the new database. -/
def Database.newTransaction (d : Database) : Transaction × Database :=
  let t : Transaction :=
    { id := d.nextTransactionID
      isolation := d.defaultIsolation
      state := .inProgressTransaction
      inProgress := d.inProgressIds
      writeset := []
      readset := [] }
  (t, { d with
          nextTransactionID := (d.nextTransactionID + 1) % 2 ^ 64
          transactions := txSet d.transactions t.id t })

/-- `Database.completeTransaction` of main.go: set the state on the
connection's transaction and write it back to the table. -/
def Database.completeTransaction (d : Database) (t : Transaction)
    (state : TransactionState) : Database :=
  { d with transactions := txSet d.transactions t.id { t with state := state } }

/-- `Database.assertValidTransaction` (with `transactionState` inlined):
`none` when all asserts pass, `some msg` for the panic message of the first
failing assert (`transactionState` itself asserts the id is present). -/
def Database.assertValid (d : Database) (t : Transaction) : Option String :=
  if t.id > 0 then
    match txGet d.transactions t.id with
    | none => some "valid transacation"
    | some t0 =>
      if t0.state = TransactionState.inProgressTransaction then none
      else some "in progress transaction"
  else some "valid id"

/-- Modelled from the spec: `Database.isVisible` is called from `execCommand`
in main.go but is nowhere defined in the repository (the source marks it
"TODO: isvisibile needs to be implemented").  This is the spec's
`creatorVisible(T, originId)` (§4.3): own writes are visible; an aborted
creator is not; an in-progress creator only under ReadUncommitted; a committed
creator always under ReadUncommitted/ReadCommitted, and under RepeatableRead
or stricter only when it is outside `T`'s snapshot.  A lookup of an id absent
from the table (unreachable for ids stamped by the engine) yields `false`. -/
def creatorVisible (d : Database) (t : Transaction) (originId : Nat) : Bool :=
  if originId = t.id then true
  else
    match txGet d.transactions originId with
    | none => false
    | some origin =>
      match origin.state with
      | .abortedTransaction => false
      | .inProgressTransaction =>
        t.isolation = IsolationLevel.readUncommittedIsolation
      | .committedTransaction =>
        if t.isolation = IsolationLevel.readUncommittedIsolation
            ∨ t.isolation = IsolationLevel.readCommittedIsolation then true
        else !(t.inProgress.contains originId)

/-- Modelled from the spec: the spec's `versionVisible(T, version)` (§4.3),
standing for the undefined `Database.isVisible` that `execCommand` calls: the
creator must be visible; a never-closed version is visible; a version `T`
itself closed is not; otherwise the version stays visible exactly while its
closer is not visible to `T`. -/
def Database.isVisible (d : Database) (t : Transaction) (v : Value) : Bool :=
  if !(creatorVisible d t v.txStartID) then false
  else if v.txEndID = 0 then true
  else if v.txEndID = t.id then false
  else !(creatorVisible d t v.txEndID)

/-- Outcome of `Connection.execCommand`: a `(result, nil)` return, a
`("", err)` return, or a Go panic (which aborts the call; the database as of
the panic is recorded). -/
inductive ExecResult where
  | ok (res : String) (db : Database) (tx : Option Transaction)
  | err (msg : String) (db : Database) (tx : Option Transaction)
  | fatal (msg : String) (db : Database)
  deriving DecidableEq, Repr

/-- The database after an `execCommand` outcome. -/
def ExecResult.db : ExecResult → Database
  | .ok _ d _ => d
  | .err _ d _ => d
  | .fatal _ d => d

/-- The connection's transaction after an `execCommand` outcome (a panic kills
the call, so no transaction comes back). -/
def ExecResult.txOut : ExecResult → Option Transaction
  | .ok _ _ t => t
  | .err _ _ t => t
  | .fatal _ _ => none

/-- The `begin` branch of `execCommand`: `assertEq(c.tx, nil)` (panic when a
transaction is open), then `newTransaction`, then `assertValidTransaction`,
then return the new id formatted as a decimal string. -/
def execBegin (d : Database) (tx : Option Transaction) : ExecResult :=
  match tx with
  | some _ => .fatal "no running transactions" d
  | none =>
    let p := d.newTransaction
    match p.2.assertValid p.1 with
    | some msg => .fatal msg p.2
    | none => .ok (toString p.1.id) p.2 (some p.1)

/-- The `abort`/`commit` branches of `execCommand`: `assertValidTransaction`
(a nil connection transaction is a nil-pointer dereference), then
`completeTransaction` with the target state, then clear the connection's
transaction. -/
def execComplete (d : Database) (tx : Option Transaction)
    (state : TransactionState) : ExecResult :=
  match tx with
  | none => .fatal "nil pointer dereference" d
  | some t =>
    match d.assertValid t with
    | some msg => .fatal msg d
    | none => .ok "" (d.completeTransaction t state) none

/-- The scan of the `get` branch: `for i := len(store[key]) - 1; i > 0; i--`
visits indices `len-1, …, 1` — index 0 is never examined — and returns the
first version visible to the transaction. -/
def getScan (d : Database) (t : Transaction) (vs : List Value) : Option Value :=
  ((vs.drop 1).reverse).find? (fun v => d.isVisible t v)

/-- The `get` branch of `execCommand`: assert a valid transaction, record the
key in the readset, scan newest-first skipping index 0; on a hit return the
payload.  With no hit the branch falls off the end of its `if` without
returning, so control reaches the trailing
`return "", fmt.Errorf("command unimplemented")` — with the readset insertion
retained. -/
def execGet (d : Database) (tx : Option Transaction) (args : List String) :
    ExecResult :=
  match tx with
  | none => .fatal "nil pointer dereference" d
  | some t =>
    match d.assertValid t with
    | some msg => .fatal msg d
    | none =>
      match args with
      | [] => .fatal "index out of range" d
      | key :: _ =>
        let t1 := { t with readset := strSetInsert t.readset key }
        match getScan d t1 (storeGet d.store key) with
        | some v => .ok v.value d (some t1)
        | none => .err "command unimplemented" d (some t1)

/-- The shared `set`/`delete` branch of `execCommand`: assert a valid
transaction; stamp `txEndID := t.id` on every version of the key visible to
`t` (the per-element checks are independent, so the Go newest-first in-place
loop is the pointwise rewrite below); a `delete` that closed nothing returns
the error whose format string carries an unfilled `%q` verb (Go renders it as
`%!q(MISSING)`; either way the key is absent from the message) before the
writeset is touched; otherwise record the key in the writeset and, for `set`,
append the new open version and return the stored value. -/
def execSetDelete (d : Database) (tx : Option Transaction) (command : String)
    (args : List String) : ExecResult :=
  match tx with
  | none => .fatal "nil pointer dereference" d
  | some t =>
    match d.assertValid t with
    | some msg => .fatal msg d
    | none =>
      match args with
      | [] => .fatal "index out of range" d
      | key :: rest =>
        let found := (storeGet d.store key).any (fun v => d.isVisible t v)
        let stamp : Value → Value :=
          fun v => if d.isVisible t v then { v with txEndID := t.id } else v
        let d1 : Database := { d with store := storeStamp d.store key stamp }
        if command = "delete" ∧ found = false then
          .err "delete failed: key %q not found" d (some t)
        else
          let t1 := { t with writeset := strSetInsert t.writeset key }
          if command = "set" then
            match rest with
            | [] => .fatal "index out of range" d1
            | v :: _ =>
              let newV : Value := { txStartID := t.id, txEndID := 0, value := v }
              let d2 : Database := { d1 with store := storeAppend d1.store key newV }
              .ok v d2 (some t1)
          else .ok "" d1 (some t1)

/-- `Connection.execCommand` of main.go, as a function of the database and the
connection's transaction: lower-case the command, then try the `begin`,
`abort`, `commit`, `get`, `set`/`delete` branches in order; a command matching
none of them (including a `get` whose scan found nothing, handled inside
`execGet`) returns the `command unimplemented` error. -/
def execCommand (d : Database) (tx : Option Transaction) (command0 : String)
    (args : List String) : ExecResult :=
  let command := lowerString command0
  if command = "begin" then execBegin d tx
  else if command = "abort" then execComplete d tx .abortedTransaction
  else if command = "commit" then execComplete d tx .committedTransaction
  else if command = "get" then execGet d tx args
  else if command = "set" ∨ command = "delete" then execSetDelete d tx command args
  else .err "command unimplemented" d tx

/-- One step of a client against the engine: open a fresh connection
(`Database.newConnection`, which starts with no transaction), or have
connection `i` run `execCommand`. -/
inductive Op where
  | newConn
  | exec (i : Nat) (command : String) (args : List String)
  deriving DecidableEq, Repr

/-- A database shared by any number of connections, each holding its optional
transaction; `dead = true` once some command panicked (the process is gone and
nothing further runs). -/
structure World where
  db : Database
  conns : List (Option Transaction)
  dead : Bool
  deriving DecidableEq, Repr

/-- The world as `newDatabase` leaves it: no connections yet. -/
def initWorld : World :=
  { db := newDatabase, conns := [], dead := false }

/-- Run one `Op`; the second component reports the id returned by the op when
it was a successful `begin`, and `none` otherwise.  An `exec` naming a
connection that does not exist is a no-op (such a call cannot be written
against the Go API). -/
def runOpT (w : World) (op : Op) : World × Option Nat :=
  if w.dead then (w, none)
  else
    match op with
    | .newConn => ({ w with conns := w.conns ++ [none] }, none)
    | .exec i command args =>
      match w.conns.get? i with
      | none => (w, none)
      | some tx =>
        match execCommand w.db tx command args with
        | .ok _ db' tx' =>
          ({ w with db := db', conns := w.conns.set i tx' },
           if lowerString command = "begin" then tx'.map (fun t => t.id) else none)
        | .err _ db' tx' =>
          ({ w with db := db', conns := w.conns.set i tx' }, none)
        | .fatal _ db' => ({ db := db', conns := w.conns, dead := true }, none)

/-- Run one `Op`, keeping only the world. -/
def runOp (w : World) (op : Op) : World := (runOpT w op).1

/-- Run a sequence of ops and collect the ids returned by the successful
`begin`s, in order. -/
def runTrace : World → List Op → World × List Nat
  | w, [] => (w, [])
  | w, op :: ops =>
    let p := runOpT w op
    let r := runTrace p.1 ops
    (r.1, p.2.toList ++ r.2)

/-- Run a sequence of ops from a world. -/
def runOps (w : World) (ops : List Op) : World := (runTrace w ops).1

/-- The transaction held by connection `i` of a world. -/
def World.txOf (w : World) (i : Nat) : Option Transaction :=
  (w.conns.get? i).join

/-- The message of an `("", err)` return, when the outcome is one. -/
def ExecResult.errMsg : ExecResult → Option String
  | .err m _ _ => some m
  | _ => none

/-- The result string of a `(res, nil)` return, when the outcome is one. -/
def ExecResult.okRes : ExecResult → Option String
  | .ok r _ _ => some r
  | _ => none

/-- Isolation invariant of a database: the default isolation is the
ReadCommitted that `newDatabase` fixed, and so is every registered
transaction's level. -/
def IsoOK (d : Database) : Prop :=
  d.defaultIsolation = IsolationLevel.readCommittedIsolation ∧
  ∀ e ∈ d.transactions, e.2.isolation = IsolationLevel.readCommittedIsolation

/-- Isolation invariant of a connection's transaction. -/
def TxIsoOK : Option Transaction → Prop
  | none => True
  | some t => t.isolation = IsolationLevel.readCommittedIsolation

/-- Isolation invariant of a whole world. -/
def WorldIsoOK (w : World) : Prop :=
  IsoOK w.db ∧ ∀ c ∈ w.conns, TxIsoOK c

/-- Counter bookkeeping for the id-sequence theorem: in a live world that has
completed `n` successful begins, the next id is `(n + 1) % 2^64` and at most
`2^64 - 1` begins have happened (the begin that would hand out the wrapped id
0 dies on the `valid id` assertion). -/
def CounterOK (w : World) (n : Nat) : Prop :=
  w.dead = false →
    w.db.nextTransactionID = (n + 1) % 2 ^ 64 ∧ n + 1 ≤ 2 ^ 64

/-- Fresh database, one connection, one begun transaction, a single `set` of
key `"x"` to `"1"` by that transaction: the state of the round-trip scenario
in which the new version is the only version of its key. -/
def w1 : World :=
  runOps initWorld [.newConn, .exec 0 "begin" [], .exec 0 "set" ["x", "1"]]

/-- Fresh database, one connection, one begun transaction and nothing else:
the state for reads and deletes of absent keys. -/
def w4 : World :=
  runOps initWorld [.newConn, .exec 0 "begin" []]

/-- A database whose default isolation is Snapshot (the `Database` value a Go
caller would need for the spec's snapshot-isolation scenario; `newDatabase`
itself always picks ReadCommitted). -/
def dbSI : Database :=
  { defaultIsolation := .snapshotIsolation
    store := []
    transactions := []
    nextTransactionID := 1 }

/-- The spec's snapshot-isolation conflict scenario, one step before its end:
two connections, both begin (ids 1 and 2), both `set` key `"x"`, and the
first has committed.  The remaining step is connection 1's commit. -/
def w2 : World :=
  runOps { db := dbSI, conns := [], dead := false }
    [.newConn, .newConn, .exec 0 "begin" [], .exec 1 "begin" [],
     .exec 0 "set" ["x", "a"], .exec 1 "set" ["x", "b"], .exec 0 "commit" []]

/-- A one-transaction database used as concrete input for witnesses: the
table holds the in-progress transaction `tEx` under id 1. -/
def tEx : Transaction :=
  { id := 1
    isolation := .readCommittedIsolation
    state := .inProgressTransaction
    inProgress := []
    writeset := []
    readset := [] }

/-- The database holding exactly `tEx`. -/
def dEx : Database :=
  { defaultIsolation := .readCommittedIsolation
    store := []
    transactions := [(1, tEx)]
    nextTransactionID := 2 }

/-- An in-progress repeatable-read transaction with id 1, for the
begin-snapshot witness. -/
def tEx6a : Transaction :=
  { tEx with isolation := .repeatableReadIsolation }

/-- A committed repeatable-read transaction with id 2, for the begin-snapshot
witness. -/
def tEx6b : Transaction :=
  { tEx with
      id := 2
      isolation := .repeatableReadIsolation
      state := .committedTransaction }

/-- A repeatable-read database with one in-progress and one committed
transaction, used as concrete input for the begin-snapshot witness. -/
def dEx6 : Database :=
  { defaultIsolation := .repeatableReadIsolation
    store := []
    transactions := [(1, tEx6a), (2, tEx6b)]
    nextTransactionID := 3 }

/-! ## Theorems -/

/-! Unfolding lemmas for the association-list lookups. -/

theorem txGet_nil (i : Nat) : txGet [] i = none := rfl

theorem txGet_cons (e : Nat × Transaction) (rest : List (Nat × Transaction))
    (i : Nat) :
    txGet (e :: rest) i = if e.1 = i then some e.2 else txGet rest i := by
  by_cases h : e.1 = i <;> simp [txGet, List.find?, h]

theorem storeGet_nil (k : String) : storeGet [] k = [] := rfl

theorem storeGet_cons (e : String × List Value)
    (rest : List (String × List Value)) (k : String) :
    storeGet (e :: rest) k = if e.1 = k then e.2 else storeGet rest k := by
  by_cases h : e.1 = k <;> simp [storeGet, List.find?, h]

/-! Lemmas about `txSet`. -/

theorem txGet_txSet_self (l : List (Nat × Transaction)) (i : Nat)
    (t : Transaction) : txGet (txSet l i t) i = some t := by
  induction l with
  | nil => simp [txSet, txGet_cons]
  | cons e rest ih =>
    by_cases h1 : i < e.1
    · simp [txSet, h1, txGet_cons]
    · by_cases h2 : i = e.1
      · simp [txSet, h1, h2, txGet_cons]
      · have hne : e.1 ≠ i := fun hh => h2 hh.symm
        simp [txSet, h1, h2, txGet_cons, hne, ih]

theorem txGet_txSet_ne (l : List (Nat × Transaction)) (i j : Nat)
    (t : Transaction) (h : j ≠ i) : txGet (txSet l i t) j = txGet l j := by
  have hij : i ≠ j := fun hh => h hh.symm
  induction l with
  | nil => simp [txSet, txGet_cons, txGet_nil, hij]
  | cons e rest ih =>
    by_cases h1 : i < e.1
    · simp [txSet, h1, txGet_cons, hij]
    · by_cases h2 : i = e.1
      · have he : ¬ (e.1 = j) := fun hh => hij (h2.trans hh)
        simp only [txSet, if_neg h1, if_pos h2, txGet_cons]
        rw [if_neg hij, if_neg he]
      · simp [txSet, h1, h2, txGet_cons, ih]

theorem txSet_mem (l : List (Nat × Transaction)) (i : Nat) (t : Transaction)
    (e : Nat × Transaction) (he : e ∈ txSet l i t) : e = (i, t) ∨ e ∈ l := by
  induction l with
  | nil =>
    simp only [txSet] at he
    exact Or.inl (by simpa using he)
  | cons e0 rest ih =>
    by_cases h1 : i < e0.1
    · simp only [txSet, if_pos h1] at he
      rcases List.mem_cons.mp he with he' | he'
      · exact Or.inl he'
      · exact Or.inr he'
    · by_cases h2 : i = e0.1
      · simp only [txSet, if_neg h1, if_pos h2] at he
        rcases List.mem_cons.mp he with he' | he'
        · exact Or.inl he'
        · exact Or.inr (List.mem_cons_of_mem _ he')
      · simp only [txSet, if_neg h1, if_neg h2] at he
        rcases List.mem_cons.mp he with he' | he'
        · exact Or.inr (by simp [he'])
        · rcases ih he' with h' | h'
          · exact Or.inl h'
          · exact Or.inr (List.mem_cons_of_mem _ h')

theorem txGet_mem (l : List (Nat × Transaction)) (i : Nat) (t : Transaction)
    (h : txGet l i = some t) : (i, t) ∈ l := by
  induction l with
  | nil => simp [txGet_nil] at h
  | cons e rest ih =>
    rw [txGet_cons] at h
    by_cases he : e.1 = i
    · rw [if_pos he] at h
      have heq : (i, t) = e := by
        cases e with
        | mk a b =>
          simp only at he
          simp only [Option.some.injEq] at h
          simp [he, h]
      exact List.mem_cons.mpr (Or.inl heq)
    · rw [if_neg he] at h
      exact List.mem_cons_of_mem _ (ih h)

theorem mem_txGet (l : List (Nat × Transaction)) (i : Nat) (t : Transaction)
    (hnd : (l.map Prod.fst).Nodup) (hm : (i, t) ∈ l) : txGet l i = some t := by
  induction l with
  | nil => simp at hm
  | cons e rest ih =>
    simp only [List.map_cons, List.nodup_cons] at hnd
    rcases List.mem_cons.mp hm with he | hm'
    · rw [← he, txGet_cons]
      simp
    · have hne : ¬ (e.1 = i) := by
        intro hh
        exact hnd.1 (by
          have := List.mem_map_of_mem Prod.fst hm'
          simpa [hh] using this)
      rw [txGet_cons, if_neg hne]
      exact ih hnd.2 hm'

/-! Lemmas about the two store mutations. -/

theorem storeGet_storeStamp_ne (s : List (String × List Value))
    (k key : String) (f : Value → Value) (h : key ≠ k) :
    storeGet (storeStamp s k f) key = storeGet s key := by
  have hk : ¬ (k = key) := fun hh => h hh.symm
  have hkk : ¬ (key = k) := h
  induction s with
  | nil => rfl
  | cons e rest ih =>
    simp only [storeStamp, List.map_cons] at ih ⊢
    by_cases hek : e.1 = k
    · simp [storeGet_cons, hek, hk, hkk, ih]
    · by_cases hekey : e.1 = key
      · simp [storeGet_cons, hek, hekey, hk, hkk]
      · simp [storeGet_cons, hek, hekey, ih]

theorem storeGet_storeStamp_eq (s : List (String × List Value)) (k : String)
    (f : Value → Value) :
    storeGet (storeStamp s k f) k = (storeGet s k).map f := by
  induction s with
  | nil => rfl
  | cons e rest ih =>
    simp only [storeStamp, List.map_cons] at ih ⊢
    by_cases hek : e.1 = k
    · simp [storeGet_cons, hek]
    · simp [storeGet_cons, hek, ih]

theorem storeGet_mapAppend_ne (s : List (String × List Value))
    (k key : String) (v : Value) (h : key ≠ k) :
    storeGet (s.map (fun e => if e.1 = k then (e.1, e.2 ++ [v]) else e)) key
      = storeGet s key := by
  have hk : ¬ (k = key) := fun hh => h hh.symm
  have hkk : ¬ (key = k) := h
  induction s with
  | nil => rfl
  | cons e rest ih =>
    simp only [List.map_cons] at ih ⊢
    by_cases hek : e.1 = k
    · simp [storeGet_cons, hek, hk, hkk, ih]
    · by_cases hekey : e.1 = key
      · simp [storeGet_cons, hek, hekey, hk, hkk]
      · simp [storeGet_cons, hek, hekey, ih]

theorem storeGet_mapAppend_eq (s : List (String × List Value)) (k : String)
    (v : Value) (hs : (s.find? (fun e => e.1 = k)).isSome) :
    storeGet (s.map (fun e => if e.1 = k then (e.1, e.2 ++ [v]) else e)) k
      = storeGet s k ++ [v] := by
  induction s with
  | nil => simp [List.find?] at hs
  | cons e rest ih =>
    by_cases hek : e.1 = k
    · simp [storeGet_cons, hek]
    · have hs2 : (rest.find? (fun e => e.1 = k)).isSome := by
        simpa [List.find?, hek] using hs
      simp [storeGet_cons, hek, ih hs2]

theorem storeGet_eq_nil_of_not_found (s : List (String × List Value))
    (k : String) (hs : ¬ (s.find? (fun e => e.1 = k)).isSome) :
    storeGet s k = [] := by
  unfold storeGet
  cases hf : s.find? (fun e => e.1 = k) with
  | none => rfl
  | some e => exact absurd (by simp [hf]) hs

theorem storeGet_append_entry_ne (s : List (String × List Value))
    (k key : String) (vs : List Value) (h : key ≠ k) :
    storeGet (s ++ [(k, vs)]) key = storeGet s key := by
  have hk : ¬ (k = key) := fun hh => h hh.symm
  induction s with
  | nil => simp [storeGet_cons, storeGet_nil, hk]
  | cons e rest ih =>
    by_cases hekey : e.1 = key
    · simp [storeGet_cons, hekey]
    · simp [storeGet_cons, hekey, ih]

theorem storeGet_append_entry_self (s : List (String × List Value))
    (k : String) (vs : List Value)
    (hs : ¬ (s.find? (fun e => e.1 = k)).isSome) :
    storeGet (s ++ [(k, vs)]) k = vs := by
  induction s with
  | nil => simp [storeGet_cons]
  | cons e rest ih =>
    have hek : ¬ (e.1 = k) := fun hh => hs (by simp [List.find?, hh])
    have hs' : ¬ (rest.find? (fun e => e.1 = k)).isSome := by
      intro hs'
      apply hs
      simpa [List.find?, hek] using hs'
    simp [storeGet_cons, hek, ih hs']

theorem storeGet_storeAppend_ne (s : List (String × List Value))
    (k key : String) (v : Value) (h : key ≠ k) :
    storeGet (storeAppend s k v) key = storeGet s key := by
  unfold storeAppend
  by_cases hs : (s.find? (fun e => e.1 = k)).isSome
  · rw [if_pos hs]
    exact storeGet_mapAppend_ne s k key v h
  · rw [if_neg hs]
    exact storeGet_append_entry_ne s k key [v] h

theorem storeGet_storeAppend_eq (s : List (String × List Value)) (k : String)
    (v : Value) :
    storeGet (storeAppend s k v) k = storeGet s k ++ [v] := by
  unfold storeAppend
  by_cases hs : (s.find? (fun e => e.1 = k)).isSome
  · rw [if_pos hs]
    exact storeGet_mapAppend_eq s k v hs
  · rw [if_neg hs]
    rw [storeGet_eq_nil_of_not_found s k hs, List.nil_append]
    exact storeGet_append_entry_self s k [v] hs

/-! Branch analysis of `execCommand`. -/

theorem execCommand_of_begin (d : Database) (tx : Option Transaction)
    (cmd : String) (args : List String) (h : lowerString cmd = "begin") :
    execCommand d tx cmd args = execBegin d tx := by
  unfold execCommand
  rw [if_pos h]

theorem execCommand_of_not_begin (d : Database) (tx : Option Transaction)
    (cmd : String) (args : List String) (h : ¬ lowerString cmd = "begin") :
    execCommand d tx cmd args = execComplete d tx .abortedTransaction
    ∨ execCommand d tx cmd args = execComplete d tx .committedTransaction
    ∨ execCommand d tx cmd args = execGet d tx args
    ∨ execCommand d tx cmd args = execSetDelete d tx "set" args
    ∨ execCommand d tx cmd args = execSetDelete d tx "delete" args
    ∨ execCommand d tx cmd args = .err "command unimplemented" d tx := by
  unfold execCommand
  rw [if_neg h]
  split_ifs with h2 h3 h4 h5
  · exact Or.inl rfl
  · exact Or.inr (Or.inl rfl)
  · exact Or.inr (Or.inr (Or.inl rfl))
  · rcases h5 with h5 | h5 <;> rw [h5]
    · exact Or.inr (Or.inr (Or.inr (Or.inl rfl)))
    · exact Or.inr (Or.inr (Or.inr (Or.inr (Or.inl rfl))))
  · exact Or.inr (Or.inr (Or.inr (Or.inr (Or.inr rfl))))

theorem execCommand_branches (d : Database) (tx : Option Transaction)
    (cmd : String) (args : List String) :
    execCommand d tx cmd args = execBegin d tx
    ∨ execCommand d tx cmd args = execComplete d tx .abortedTransaction
    ∨ execCommand d tx cmd args = execComplete d tx .committedTransaction
    ∨ execCommand d tx cmd args = execGet d tx args
    ∨ execCommand d tx cmd args = execSetDelete d tx "set" args
    ∨ execCommand d tx cmd args = execSetDelete d tx "delete" args
    ∨ execCommand d tx cmd args = .err "command unimplemented" d tx := by
  by_cases h : lowerString cmd = "begin"
  · exact Or.inl (execCommand_of_begin d tx cmd args h)
  · exact Or.inr (execCommand_of_not_begin d tx cmd args h)

/-! Effect of each branch on the parts of the database it does not touch. -/

theorem execBegin_frame (d : Database) (tx : Option Transaction) :
    (execBegin d tx).db.store = d.store
    ∧ (execBegin d tx).db.defaultIsolation = d.defaultIsolation := by
  unfold execBegin
  cases tx with
  | some t => exact ⟨rfl, rfl⟩
  | none =>
    dsimp only
    split
    · exact ⟨rfl, rfl⟩
    · exact ⟨rfl, rfl⟩

theorem execComplete_frame (d : Database) (tx : Option Transaction)
    (st : TransactionState) :
    (execComplete d tx st).db.store = d.store
    ∧ (execComplete d tx st).db.defaultIsolation = d.defaultIsolation
    ∧ (execComplete d tx st).db.nextTransactionID = d.nextTransactionID := by
  unfold execComplete
  cases tx with
  | none => exact ⟨rfl, rfl, rfl⟩
  | some t =>
    dsimp only
    split
    · exact ⟨rfl, rfl, rfl⟩
    · exact ⟨rfl, rfl, rfl⟩

theorem execGet_db (d : Database) (tx : Option Transaction)
    (args : List String) : (execGet d tx args).db = d := by
  unfold execGet
  cases tx with
  | none => rfl
  | some t =>
    dsimp only
    split
    · rfl
    · cases args with
      | nil => rfl
      | cons key rest =>
        dsimp only
        split
        · rfl
        · rfl

theorem execSetDelete_frame (d : Database) (tx : Option Transaction)
    (cmd : String) (args : List String) :
    (execSetDelete d tx cmd args).db.transactions = d.transactions
    ∧ (execSetDelete d tx cmd args).db.defaultIsolation = d.defaultIsolation
    ∧ (execSetDelete d tx cmd args).db.nextTransactionID
        = d.nextTransactionID := by
  unfold execSetDelete
  cases tx with
  | none => exact ⟨rfl, rfl, rfl⟩
  | some t =>
    dsimp only
    split
    · exact ⟨rfl, rfl, rfl⟩
    · cases args with
      | nil => exact ⟨rfl, rfl, rfl⟩
      | cons key rest =>
        dsimp only
        split
        · exact ⟨rfl, rfl, rfl⟩
        · split
          · cases rest with
            | nil => exact ⟨rfl, rfl, rfl⟩
            | cons v0 rest0 => exact ⟨rfl, rfl, rfl⟩
          · exact ⟨rfl, rfl, rfl⟩

/-! Preservation of the isolation invariant by every command. -/

theorem execBegin_iso (d : Database) (tx : Option Transaction)
    (hd : IsoOK d) (ht : TxIsoOK tx) :
    IsoOK (execBegin d tx).db ∧ TxIsoOK (execBegin d tx).txOut := by
  unfold execBegin
  cases tx with
  | some t => exact ⟨hd, trivial⟩
  | none =>
    have hiso : IsoOK (d.newTransaction).2 := by
      refine ⟨hd.1, ?_⟩
      intro e he
      rcases txSet_mem _ _ _ _ he with he' | he'
      · rw [he']
        exact hd.1
      · exact hd.2 e he'
    have htx : ((d.newTransaction).1).isolation
        = IsolationLevel.readCommittedIsolation := hd.1
    dsimp only
    split
    · exact ⟨hiso, trivial⟩
    · exact ⟨hiso, htx⟩

theorem execComplete_iso (d : Database) (tx : Option Transaction)
    (st : TransactionState) (hd : IsoOK d) (ht : TxIsoOK tx) :
    IsoOK (execComplete d tx st).db ∧ TxIsoOK (execComplete d tx st).txOut := by
  unfold execComplete
  cases tx with
  | none => exact ⟨hd, trivial⟩
  | some t =>
    dsimp only
    split
    · exact ⟨hd, trivial⟩
    · refine ⟨⟨hd.1, ?_⟩, trivial⟩
      intro e he
      rcases txSet_mem _ _ _ _ he with he' | he'
      · rw [he']
        exact ht
      · exact hd.2 e he'

theorem execGet_txOut_iso (d : Database) (tx : Option Transaction)
    (args : List String) (ht : TxIsoOK tx) :
    TxIsoOK (execGet d tx args).txOut := by
  unfold execGet
  cases tx with
  | none => trivial
  | some t =>
    dsimp only
    split
    · trivial
    · cases args with
      | nil => trivial
      | cons key rest =>
        dsimp only
        split
        · exact ht
        · exact ht

theorem execSetDelete_txOut_iso (d : Database) (tx : Option Transaction)
    (cmd : String) (args : List String) (ht : TxIsoOK tx) :
    TxIsoOK (execSetDelete d tx cmd args).txOut := by
  unfold execSetDelete
  cases tx with
  | none => trivial
  | some t =>
    dsimp only
    split
    · trivial
    · cases args with
      | nil => trivial
      | cons key rest =>
        dsimp only
        split
        · exact ht
        · split
          · cases rest with
            | nil => trivial
            | cons v0 rest0 => exact ht
          · exact ht

theorem execCommand_iso (d : Database) (tx : Option Transaction) (cmd : String)
    (args : List String) (hd : IsoOK d) (ht : TxIsoOK tx) :
    IsoOK (execCommand d tx cmd args).db
    ∧ TxIsoOK (execCommand d tx cmd args).txOut := by
  rcases execCommand_branches d tx cmd args with h | h | h | h | h | h | h
  all_goals rw [h]
  · exact execBegin_iso d tx hd ht
  · exact execComplete_iso d tx _ hd ht
  · exact execComplete_iso d tx _ hd ht
  · rw [execGet_db d tx args]
    exact ⟨hd, execGet_txOut_iso d tx args ht⟩
  · have hf := execSetDelete_frame d tx "set" args
    refine ⟨⟨?_, ?_⟩, execSetDelete_txOut_iso d tx "set" args ht⟩
    · rw [hf.2.1]
      exact hd.1
    · rw [hf.1]
      exact hd.2
  · have hf := execSetDelete_frame d tx "delete" args
    refine ⟨⟨?_, ?_⟩, execSetDelete_txOut_iso d tx "delete" args ht⟩
    · rw [hf.2.1]
      exact hd.1
    · rw [hf.1]
      exact hd.2
  · exact ⟨hd, ht⟩

/-! The isolation invariant along whole runs. -/

theorem runOps_cons (w : World) (op : Op) (ops : List Op) :
    runOps w (op :: ops) = runOps (runOp w op) ops := rfl

theorem runOp_iso (w : World) (op : Op) (hw : WorldIsoOK w) :
    WorldIsoOK (runOp w op) := by
  unfold runOp runOpT
  by_cases hdead : w.dead
  · rw [if_pos hdead]
    exact hw
  · rw [if_neg hdead]
    cases op with
    | newConn =>
      dsimp only
      refine ⟨hw.1, ?_⟩
      intro c hc
      rcases List.mem_append.mp hc with hc' | hc'
      · exact hw.2 c hc'
      · have hcn : c = none := by simpa using hc'
        rw [hcn]
        trivial
    | exec i cmd args =>
      dsimp only
      cases hc : w.conns.get? i with
      | none => exact hw
      | some tx =>
        dsimp only
        have htx : TxIsoOK tx := hw.2 tx (List.get?_mem hc)
        have hiso := execCommand_iso w.db tx cmd args hw.1 htx
        cases hr : execCommand w.db tx cmd args with
        | ok res db' tx' =>
          dsimp only
          rw [hr] at hiso
          refine ⟨hiso.1, ?_⟩
          intro c hcm
          rcases List.mem_or_eq_of_mem_set hcm with hc' | hc'
          · exact hw.2 c hc'
          · rw [hc']
            exact hiso.2
        | err msg db' tx' =>
          dsimp only
          rw [hr] at hiso
          refine ⟨hiso.1, ?_⟩
          intro c hcm
          rcases List.mem_or_eq_of_mem_set hcm with hc' | hc'
          · exact hw.2 c hc'
          · rw [hc']
            exact hiso.2
        | fatal msg db' =>
          dsimp only
          rw [hr] at hiso
          exact ⟨hiso.1, hw.2⟩

theorem runOps_iso (ops : List Op) (w : World) (hw : WorldIsoOK w) :
    WorldIsoOK (runOps w ops) := by
  induction ops generalizing w with
  | nil => exact hw
  | cons op ops ih =>
    rw [runOps_cons]
    exact ih (runOp w op) (runOp_iso w op hw)

/-! The id counter along whole runs. -/

theorem newTransaction_id (d : Database) :
    (d.newTransaction).1.id = d.nextTransactionID := rfl

theorem newTransaction_counter (d : Database) :
    (d.newTransaction).2.nextTransactionID
      = (d.nextTransactionID + 1) % 2 ^ 64 := rfl

theorem execBegin_fatal_of_counter_zero (d : Database)
    (h : d.nextTransactionID = 0) :
    execBegin d none = .fatal "valid id" (d.newTransaction).2 := by
  have hval : ((d.newTransaction).2).assertValid (d.newTransaction).1
      = some "valid id" := by
    unfold Database.assertValid
    rw [newTransaction_id, h]
    simp
  unfold execBegin
  dsimp only
  rw [hval]

theorem execBegin_ok_of_counter_pos (d : Database)
    (h : 0 < d.nextTransactionID) :
    execBegin d none
      = .ok (toString d.nextTransactionID) (d.newTransaction).2
          (some (d.newTransaction).1) := by
  have hval : ((d.newTransaction).2).assertValid (d.newTransaction).1
      = none := by
    unfold Database.assertValid
    rw [newTransaction_id]
    rw [if_pos h]
    have hget : txGet ((d.newTransaction).2).transactions d.nextTransactionID
        = some (d.newTransaction).1 := by
      unfold Database.newTransaction
      dsimp only
      exact txGet_txSet_self _ _ _
    rw [hget]
    simp [Database.newTransaction]
  unfold execBegin
  dsimp only
  rw [hval]
  rfl

theorem execCommand_counter_not_begin (d : Database) (tx : Option Transaction)
    (cmd : String) (args : List String) (h : ¬ lowerString cmd = "begin") :
    (execCommand d tx cmd args).db.nextTransactionID
      = d.nextTransactionID := by
  rcases execCommand_of_not_begin d tx cmd args h
    with h' | h' | h' | h' | h' | h' <;> rw [h']
  · exact (execComplete_frame d tx _).2.2
  · exact (execComplete_frame d tx _).2.2
  · rw [execGet_db]
  · exact (execSetDelete_frame d tx _ args).2.2
  · exact (execSetDelete_frame d tx _ args).2.2
  · rfl

theorem runOpT_step (w : World) (op : Op) (n : Nat) (hw : CounterOK w n) :
    ((runOpT w op).2 = none ∧ CounterOK (runOpT w op).1 n)
    ∨ ((runOpT w op).2 = some (n + 1) ∧ CounterOK (runOpT w op).1 (n + 1)) := by
  by_cases hdead : w.dead = true
  · have hp : runOpT w op = (w, none) := by
      unfold runOpT
      rw [hdead]
      rfl
    rw [hp]
    exact Or.inl ⟨rfl, hw⟩
  · have hdf : w.dead = false := by
      revert hdead
      cases w.dead <;> simp
    have hcnt := hw hdf
    unfold runOpT
    rw [hdf]
    simp only [Bool.false_eq_true, if_false]
    cases op with
    | newConn =>
      refine Or.inl ⟨rfl, ?_⟩
      intro _
      exact hcnt
    | exec i cmd args =>
      dsimp only
      cases hc : w.conns.get? i with
      | none => exact Or.inl ⟨rfl, hw⟩
      | some tx =>
        dsimp only
        by_cases hb : lowerString cmd = "begin"
        · rw [execCommand_of_begin w.db tx cmd args hb]
          cases tx with
          | some t =>
            rw [show execBegin w.db (some t)
                = .fatal "no running transactions" w.db from rfl]
            refine Or.inl ⟨rfl, ?_⟩
            intro hfd
            simp at hfd
          | none =>
            by_cases hz : w.db.nextTransactionID = 0
            · rw [execBegin_fatal_of_counter_zero w.db hz]
              refine Or.inl ⟨rfl, ?_⟩
              intro hfd
              simp at hfd
            · have hpos : 0 < w.db.nextTransactionID := Nat.pos_of_ne_zero hz
              rw [execBegin_ok_of_counter_pos w.db hpos]
              dsimp only
              rw [if_pos hb]
              have hlt : n + 1 < 2 ^ 64 := by
                rcases Nat.lt_or_ge (n + 1) (2 ^ 64) with hlt | hge
                · exact hlt
                · exfalso
                  have he : n + 1 = 2 ^ 64 := Nat.le_antisymm hcnt.2 hge
                  rw [he, Nat.mod_self] at hcnt
                  exact hz hcnt.1
              have hid : w.db.nextTransactionID = n + 1 := by
                rw [hcnt.1]
                exact Nat.mod_eq_of_lt hlt
              refine Or.inr ⟨?_, ?_⟩
              · simp [Option.map, newTransaction_id, hid]
              · intro _
                rw [newTransaction_counter, hid]
                exact ⟨rfl, by omega⟩
        · cases hr : execCommand w.db tx cmd args with
          | ok res db' tx' =>
            dsimp only
            rw [if_neg hb]
            refine Or.inl ⟨rfl, ?_⟩
            intro _
            have := execCommand_counter_not_begin w.db tx cmd args hb
            rw [hr] at this
            rw [show (ExecResult.ok res db' tx').db = db' from rfl] at this
            rw [this]
            exact hcnt
          | err msg db' tx' =>
            refine Or.inl ⟨rfl, ?_⟩
            intro _
            have := execCommand_counter_not_begin w.db tx cmd args hb
            rw [hr] at this
            rw [show (ExecResult.err msg db' tx').db = db' from rfl] at this
            rw [this]
            exact hcnt
          | fatal msg db' =>
            refine Or.inl ⟨rfl, ?_⟩
            intro hfd
            simp at hfd

theorem runTrace_seq (ops : List Op) (w : World) (n : Nat)
    (hw : CounterOK w n) :
    (runTrace w ops).2 = List.range' (n + 1) (runTrace w ops).2.length := by
  induction ops generalizing w n with
  | nil => rfl
  | cons op ops ih =>
    have hsplit : (runTrace w (op :: ops)).2
        = (runOpT w op).2.toList ++ (runTrace (runOpT w op).1 ops).2 := rfl
    rcases runOpT_step w op n hw with ⟨h1, h2⟩ | ⟨h1, h2⟩
    · rw [hsplit, h1]
      simp only [Option.toList, List.nil_append]
      exact ih _ _ h2
    · rw [hsplit, h1]
      have ht := ih _ _ h2
      rw [ht]
      simp [List.range'_succ, List.length_range']

/-! Once a version's `txEndID` is set, no command resets it to 0. -/

theorem assertValid_id_pos (d : Database) (t : Transaction)
    (h : d.assertValid t = none) : 0 < t.id := by
  unfold Database.assertValid at h
  by_cases hp : t.id > 0
  · exact hp
  · rw [if_neg hp] at h
    simp at h

theorem no_reset_stamped (d : Database) (t : Transaction) (k0 key : String)
    (i : Nat) (v v' : Value) (hid : t.id ≠ 0)
    (hv : (storeGet d.store key)[i]? = some v)
    (hv' : (storeGet (storeStamp d.store k0
        (fun v => if d.isVisible t v then { v with txEndID := t.id } else v))
        key)[i]? = some v')
    (hnz : v.txEndID ≠ 0) : v'.txEndID ≠ 0 := by
  by_cases hk : key = k0
  · subst hk
    rw [storeGet_storeStamp_eq, List.getElem?_map, hv] at hv'
    simp only [Option.map_some'] at hv'
    have hvv : v'
        = if d.isVisible t v then { v with txEndID := t.id } else v :=
      (Option.some.inj hv').symm
    rw [hvv]
    split
    · exact hid
    · exact hnz
  · rw [storeGet_storeStamp_ne _ _ _ _ hk, hv] at hv'
    exact Option.some.inj hv' ▸ hnz

theorem no_reset_appended (d : Database) (t : Transaction) (k0 key : String)
    (i : Nat) (v v' : Value) (newV : Value) (hid : t.id ≠ 0)
    (hv : (storeGet d.store key)[i]? = some v)
    (hv' : (storeGet (storeAppend (storeStamp d.store k0
        (fun v => if d.isVisible t v then { v with txEndID := t.id } else v))
        k0 newV) key)[i]? = some v')
    (hnz : v.txEndID ≠ 0) : v'.txEndID ≠ 0 := by
  by_cases hk : key = k0
  · subst hk
    rw [storeGet_storeAppend_eq, storeGet_storeStamp_eq] at hv'
    have hlen : i < ((storeGet d.store key).map
        (fun v => if d.isVisible t v then { v with txEndID := t.id } else v)).length := by
      rw [List.length_map]
      by_contra hc
      rw [List.getElem?_eq_none (Nat.le_of_not_lt hc)] at hv
      cases hv
    rw [List.getElem?_append, if_pos hlen, List.getElem?_map, hv] at hv'
    simp only [Option.map_some'] at hv'
    have hvv : v'
        = if d.isVisible t v then { v with txEndID := t.id } else v :=
      (Option.some.inj hv').symm
    rw [hvv]
    split
    · exact hid
    · exact hnz
  · rw [storeGet_storeAppend_ne _ _ _ _ hk,
      storeGet_storeStamp_ne _ _ _ _ hk, hv] at hv'
    exact Option.some.inj hv' ▸ hnz

theorem execSetDelete_no_reset (d : Database) (tx : Option Transaction)
    (cmd : String) (args : List String) (key : String) (i : Nat) (v v' : Value)
    (hv : (storeGet d.store key)[i]? = some v)
    (hv' : (storeGet (execSetDelete d tx cmd args).db.store key)[i]?
        = some v')
    (hnz : v.txEndID ≠ 0) : v'.txEndID ≠ 0 := by
  unfold execSetDelete at hv'
  cases tx with
  | none =>
    dsimp only [ExecResult.db] at hv'
    rw [hv] at hv'
    exact Option.some.inj hv' ▸ hnz
  | some t =>
    dsimp only [ExecResult.db] at hv'
    cases hav : d.assertValid t with
    | some m =>
      rw [hav] at hv'
      dsimp only [ExecResult.db] at hv'
      rw [hv] at hv'
      exact Option.some.inj hv' ▸ hnz
    | none =>
      rw [hav] at hv'
      dsimp only [ExecResult.db] at hv'
      have hid : t.id ≠ 0 := Nat.pos_iff_ne_zero.mp (assertValid_id_pos d t hav)
      cases args with
      | nil =>
        dsimp only [ExecResult.db] at hv'
        rw [hv] at hv'
        exact Option.some.inj hv' ▸ hnz
      | cons k0 rest =>
        dsimp only [ExecResult.db] at hv'
        by_cases hcond : (cmd = "delete"
            ∧ ((storeGet d.store k0).any fun v => d.isVisible t v) = false)
        · rw [if_pos hcond] at hv'
          dsimp only [ExecResult.db] at hv'
          rw [hv] at hv'
          exact Option.some.inj hv' ▸ hnz
        · rw [if_neg hcond] at hv'
          by_cases hset : cmd = "set"
          · rw [if_pos hset] at hv'
            cases rest with
            | nil =>
              dsimp only [ExecResult.db] at hv'
              exact no_reset_stamped d t k0 key i v v' hid hv hv' hnz
            | cons v0 rest0 =>
              dsimp only [ExecResult.db] at hv'
              exact no_reset_appended d t k0 key i v v' _ hid hv hv' hnz
          · rw [if_neg hset] at hv'
            dsimp only [ExecResult.db] at hv'
            exact no_reset_stamped d t k0 key i v v' hid hv hv' hnz

theorem execCommand_no_reset (d : Database) (tx : Option Transaction)
    (cmd : String) (args : List String) (key : String) (i : Nat) (v v' : Value)
    (hv : (storeGet d.store key)[i]? = some v)
    (hv' : (storeGet (execCommand d tx cmd args).db.store key)[i]? = some v')
    (hnz : v.txEndID ≠ 0) : v'.txEndID ≠ 0 := by
  rcases execCommand_branches d tx cmd args
    with h | h | h | h | h | h | h <;> rw [h] at hv'
  · rw [(execBegin_frame d tx).1, hv] at hv'
    exact Option.some.inj hv' ▸ hnz
  · rw [(execComplete_frame d tx _).1, hv] at hv'
    exact Option.some.inj hv' ▸ hnz
  · rw [(execComplete_frame d tx _).1, hv] at hv'
    exact Option.some.inj hv' ▸ hnz
  · rw [execGet_db, hv] at hv'
    exact Option.some.inj hv' ▸ hnz
  · exact execSetDelete_no_reset d tx "set" args key i v v' hv hv' hnz
  · exact execSetDelete_no_reset d tx "delete" args key i v v' hv hv' hnz
  · rw [show (ExecResult.err "command unimplemented" d tx).db = d from rfl,
      hv] at hv'
    exact Option.some.inj hv' ▸ hnz

/-! Membership in the captured snapshot. -/

theorem mem_inProgressIds (d : Database) (i : Nat)
    (hnd : (d.transactions.map Prod.fst).Nodup) :
    i ∈ d.inProgressIds ↔
      ∃ t0, txGet d.transactions i = some t0 ∧
        t0.state = TransactionState.inProgressTransaction := by
  unfold Database.inProgressIds
  constructor
  · intro hi
    rcases List.mem_map.mp hi with ⟨e, he, hei⟩
    have hef := List.mem_filter.mp he
    refine ⟨e.2, ?_, ?_⟩
    · rw [← hei]
      exact mem_txGet _ _ _ hnd hef.1
    · simpa using hef.2
  · rintro ⟨t0, hget, hst⟩
    have hm := txGet_mem _ _ _ hget
    exact List.mem_map.mpr ⟨(i, t0), List.mem_filter.mpr ⟨hm, by simp [hst]⟩, rfl⟩

/-! ### The claims -/

/-- C1.  The claim fails on the code: after `set("x","1")` in a fresh
transaction the new version is the only version of `"x"` (first conjunct),
yet `get("x")` within the same still-InProgress transaction does not return
`"1"` — the `get` loop runs `for i := len-1; i > 0; i--` and so never
examines index 0, falls off the branch without returning, and the call ends
at the trailing `command unimplemented` error. -/
theorem get_own_write_single_version_fails :
    storeGet w1.db.store "x" = [{ txStartID := 1, txEndID := 0, value := "1" }]
    ∧ (execCommand w1.db (w1.txOf 0) "get" ["x"]).errMsg
        = some "command unimplemented"
    ∧ (execCommand w1.db (w1.txOf 0) "get" ["x"]).okRes = none := by
  refine ⟨by decide, by decide, by decide⟩

/-- C4.  The claim fails on the code: `get` on a key with no visible version
(here a key with no versions at all, first conjunct) does not produce a
normal non-error "not found" result — the branch has no return after its
scan, so control reaches the trailing
`return "", fmt.Errorf("command unimplemented")` and the caller receives an
error. -/
theorem get_missing_key_returns_error :
    storeGet w4.db.store "y" = []
    ∧ (execCommand w4.db (w4.txOf 0) "get" ["y"]).errMsg
        = some "command unimplemented"
    ∧ (execCommand w4.db (w4.txOf 0) "get" ["y"]).okRes = none := by
  refine ⟨by decide, by decide, by decide⟩

/-- C2.  The claim fails on the code: in the snapshot-isolation scenario in
which transactions 1 and 2 both `set` key `"x"` and transaction 1 has already
committed (first two conjuncts), transaction 2's commit — the later of the
two conflicting writers — also returns the success result and leaves
transaction 2 Committed, because `commit` calls `completeTransaction`
unconditionally: no conflict detector exists anywhere in the code. -/
theorem second_conflicting_commit_succeeds :
    ((txGet w2.db.transactions 1).map Transaction.state
        = some TransactionState.committedTransaction)
    ∧ ((txGet w2.db.transactions 2).map Transaction.isolation
        = some IsolationLevel.snapshotIsolation)
    ∧ ((execCommand w2.db (w2.txOf 1) "commit" []).okRes = some "")
    ∧ ((txGet (execCommand w2.db (w2.txOf 1) "commit" []).db.transactions 2).map
        Transaction.state = some TransactionState.committedTransaction) := by
  refine ⟨by decide, by decide, by decide, by decide⟩

/-- C3.  Every transaction ever stored in the table of a database created by
`newDatabase` has isolation level ReadCommitted, under every sequence of
operations: `begin` takes no isolation argument (the model's `Op.exec` has
none to pass), `newTransaction` copies `defaultIsolation`, and
`defaultIsolation` stays the ReadCommitted that `newDatabase` fixed. -/
theorem all_transactions_read_committed (ops : List Op) :
    (runOps initWorld ops).db.defaultIsolation
        = IsolationLevel.readCommittedIsolation
    ∧ ∀ id t, txGet (runOps initWorld ops).db.transactions id = some t →
        t.isolation = IsolationLevel.readCommittedIsolation := by
  have hinit : WorldIsoOK initWorld := by
    refine ⟨⟨rfl, ?_⟩, ?_⟩ <;> intro x hx <;> simp [initWorld, newDatabase] at hx
  have h := runOps_iso ops initWorld hinit
  refine ⟨h.1.1, ?_⟩
  intro id t ht
  exact h.1.2 (id, t) (txGet_mem _ _ _ ht)

/-- C5.  Along every operation sequence on a fresh database, the ids returned
by the successful `begin`s form exactly the sequence 1, 2, 3, …: the n-th
begin returns id n, and no id is ever handed out twice — also after aborts,
which never touch `nextTransactionID`.  (The model keeps the Go uint64
wrap-around: the begin that would hand out the wrapped id 0 dies on the
`valid id` assertion instead of returning, so repetition is impossible.) -/
theorem begin_ids_sequential (ops : List Op) :
    (runTrace initWorld ops).2
      = List.range' 1 (runTrace initWorld ops).2.length := by
  have h0 : CounterOK initWorld 0 := by
    intro _
    constructor
    · show (1 : Nat) = 1 % 2 ^ 64
      rw [Nat.mod_eq_of_lt]
      norm_num
    · norm_num
  simpa using runTrace_seq ops initWorld 0 h0

/-- C6.  `newTransaction` (the whole of `begin`'s state change), on a
database whose default isolation is RepeatableRead or stricter and whose
table is well-formed (distinct keys, all below the id counter): the new
transaction's snapshot holds exactly the ids InProgress in the table at that
moment, its own fresh id — `nextTransactionID` — is not among them, and it is
registered in the table under that id with state InProgress.  (The code
captures the snapshot at every isolation level, so the level hypothesis is
not even needed.) -/
theorem begin_snapshot_registered (d : Database)
    (hiso : IsolationLevel.repeatableReadIsolation.toNat
        ≤ d.defaultIsolation.toNat)
    (hnd : (d.transactions.map Prod.fst).Nodup)
    (hkeys : ∀ e ∈ d.transactions, e.1 < d.nextTransactionID) :
    (∀ i, i ∈ (d.newTransaction).1.inProgress ↔
        ∃ t0, txGet d.transactions i = some t0 ∧
          t0.state = TransactionState.inProgressTransaction)
    ∧ (d.newTransaction).1.id ∉ (d.newTransaction).1.inProgress
    ∧ (d.newTransaction).1.id = d.nextTransactionID
    ∧ (d.newTransaction).1.state = TransactionState.inProgressTransaction
    ∧ txGet (d.newTransaction).2.transactions (d.newTransaction).1.id
        = some (d.newTransaction).1 := by
  have hinp : (d.newTransaction).1.inProgress = d.inProgressIds := rfl
  refine ⟨?_, ?_, rfl, rfl, ?_⟩
  · intro i
    rw [hinp]
    exact mem_inProgressIds d i hnd
  · rw [hinp, newTransaction_id]
    intro hmem
    unfold Database.inProgressIds at hmem
    rcases List.mem_map.mp hmem with ⟨e, he, hei⟩
    have hlt := hkeys e (List.mem_filter.mp he).1
    rw [hei] at hlt
    exact Nat.lt_irrefl _ hlt
  · exact txGet_txSet_self d.transactions (d.newTransaction).1.id
      (d.newTransaction).1

/-- Witness for C6 at the concrete repeatable-read database `dEx6`. -/
theorem begin_snapshot_registered_witness :
    (IsolationLevel.repeatableReadIsolation.toNat
        ≤ dEx6.defaultIsolation.toNat
      ∧ (dEx6.transactions.map Prod.fst).Nodup
      ∧ ∀ e ∈ dEx6.transactions, e.1 < dEx6.nextTransactionID)
    ∧ (dEx6.newTransaction).1.id = dEx6.nextTransactionID := by
  refine ⟨⟨by decide, by decide, by decide⟩, ?_⟩
  exact (begin_snapshot_registered dEx6 (by decide) (by decide)
    (by decide)).2.2.1

/-- C7 (counterexample).  At a concrete database, `begin` on a connection
that already holds an open transaction, and `get` on a connection that holds
none, both end in a Go panic (`ExecResult.fatal`: the `assertEq`/`assert`
helpers call `panic`, and dereferencing the nil connection transaction is a
nil-pointer panic) — not in an InvalidState error value returned to the
caller, as the claim states. -/
theorem invalid_state_panics_cex :
    execCommand dEx (some tEx) "begin" [] = .fatal "no running transactions" dEx
    ∧ execCommand dEx none "get" ["x"] = .fatal "nil pointer dereference" dEx := by
  refine ⟨by decide, by decide⟩

/-- C7 (amended).  `begin` with a transaction already open, and every other
operation (`get`, `set`, `delete`, `commit`, `abort`) with none open, fail —
but as fatal assertion panics that terminate the process, not as InvalidState
errors returned to the caller; the database recorded at the panic is exactly
the one the call started from, i.e. no engine transaction state was
changed. -/
theorem invalid_state_panics (d : Database) (t : Transaction)
    (args : List String) :
    execCommand d (some t) "begin" args = .fatal "no running transactions" d
    ∧ execCommand d none "abort" args = .fatal "nil pointer dereference" d
    ∧ execCommand d none "commit" args = .fatal "nil pointer dereference" d
    ∧ execCommand d none "get" args = .fatal "nil pointer dereference" d
    ∧ execCommand d none "set" args = .fatal "nil pointer dereference" d
    ∧ execCommand d none "delete" args = .fatal "nil pointer dereference" d := by
  refine ⟨rfl, rfl, rfl, rfl, rfl, rfl⟩

/-- C8.  `abort` on a valid InProgress transaction returns success with the
store untouched, the transaction's table entry moved to Aborted, and every
other transaction's entry unchanged — so versions it closed stay physically
closed — and, globally, no command ever resets a version's non-zero
`txEndID` back to 0: a version keeps a non-zero closer at its position under
every `execCommand`. -/
theorem abort_frame_and_no_close_reset (d : Database) (t : Transaction)
    (hv : d.assertValid t = none) :
    ((execCommand d (some t) "abort" []).db.store = d.store
      ∧ (execCommand d (some t) "abort" []).txOut = none
      ∧ txGet (execCommand d (some t) "abort" []).db.transactions t.id
          = some { t with state := TransactionState.abortedTransaction }
      ∧ ∀ j, ¬ j = t.id →
          txGet (execCommand d (some t) "abort" []).db.transactions j
            = txGet d.transactions j)
    ∧ (∀ (d' : Database) (tx : Option Transaction) (cmd : String)
        (args : List String) (key : String) (i : Nat) (v v' : Value),
        (storeGet d'.store key)[i]? = some v →
        (storeGet (execCommand d' tx cmd args).db.store key)[i]? = some v' →
        v.txEndID ≠ 0 → v'.txEndID ≠ 0) := by
  have he : execCommand d (some t) "abort" []
      = execComplete d (some t) TransactionState.abortedTransaction := rfl
  have he2 : execComplete d (some t) TransactionState.abortedTransaction
      = .ok "" (d.completeTransaction t .abortedTransaction) none := by
    unfold execComplete
    dsimp only
    rw [hv]
  refine ⟨?_, ?_⟩
  · rw [he, he2]
    refine ⟨rfl, rfl, ?_, ?_⟩
    · exact txGet_txSet_self _ _ _
    · intro j hj
      exact txGet_txSet_ne _ _ _ _ hj
  · intro d' tx cmd args key i v v' hv1 hv2 hnz
    exact execCommand_no_reset d' tx cmd args key i v v' hv1 hv2 hnz

/-- Witness for C8 at the concrete database `dEx` holding the in-progress
transaction `tEx`. -/
theorem abort_frame_and_no_close_reset_witness :
    dEx.assertValid tEx = none
    ∧ (execCommand dEx (some tEx) "abort" []).db.store = dEx.store := by
  refine ⟨by decide, (abort_frame_and_no_close_reset dEx tEx (by decide)).1.1⟩

/-- C9 (counterexample).  `delete` of the absent key `"x"` does fail, but the
message of the error it returns is the raw format string — Go renders its
unfilled `%q` verb as `%!q(MISSING)` — and the missing key appears nowhere in
it (the message does not even contain the character `x`), contradicting the
claim that the key is interpolated into the text. -/
theorem delete_error_message_drops_key :
    execCommand dEx (some tEx) "delete" ["x"]
      = .err "delete failed: key %q not found" dEx (some tEx)
    ∧ ("delete failed: key %q not found".data.contains 'x') = false := by
  refine ⟨by decide, by decide⟩

/-- C9 (amended).  `delete(k)` under a valid InProgress transaction fails
with the key-not-found error exactly when no version of `k` is visible to the
transaction (so `closeVisible` closed nothing) — but the error's message is
the fixed string `delete failed: key %q not found`, whose `%q` verb is given
no argument, so the missing key is NOT interpolated into the text. -/
theorem delete_missing_key_error (d : Database) (t : Transaction)
    (key : String) (rest : List String) (hv : d.assertValid t = none)
    (hnone : ∀ v ∈ storeGet d.store key, d.isVisible t v = false) :
    execCommand d (some t) "delete" (key :: rest)
      = .err "delete failed: key %q not found" d (some t) := by
  have he : execCommand d (some t) "delete" (key :: rest)
      = execSetDelete d (some t) "delete" (key :: rest) := rfl
  rw [he]
  unfold execSetDelete
  dsimp only
  rw [hv]
  dsimp only
  have hfound : ((storeGet d.store key).any fun v => d.isVisible t v)
      = false := by
    rw [List.any_eq_false]
    intro v hvm
    simp [hnone v hvm]
  rw [if_pos ⟨rfl, hfound⟩]

/-- Witness for C9's amended statement at the concrete database `dEx`, whose
store has no version of `"x"` at all. -/
theorem delete_missing_key_error_witness :
    (dEx.assertValid tEx = none
      ∧ ∀ v ∈ storeGet dEx.store "x", dEx.isVisible tEx v = false)
    ∧ execCommand dEx (some tEx) "delete" ["x"]
        = .err "delete failed: key %q not found" dEx (some tEx) := by
  refine ⟨⟨by decide, by decide⟩, ?_⟩
  exact delete_missing_key_error dEx tEx "x" [] (by decide) (by decide)

/-- C10.  Whenever `delete(k)` returns an error — and its only error return
is the key-not-found one — the database and the connection's transaction come
back exactly as they were: no `txEndID` was stamped, no version appended, and
`k` was not inserted into the writeset, because the error return precedes the
writeset insertion and a scan that closed nothing mutated nothing. -/
theorem delete_error_frame (d : Database) (t : Transaction) (key : String)
    (rest : List String) (msg : String) (db' : Database)
    (tx' : Option Transaction)
    (h : execCommand d (some t) "delete" (key :: rest) = .err msg db' tx') :
    db' = d ∧ tx' = some t ∧ msg = "delete failed: key %q not found" := by
  have he : execCommand d (some t) "delete" (key :: rest)
      = execSetDelete d (some t) "delete" (key :: rest) := rfl
  rw [he] at h
  unfold execSetDelete at h
  dsimp only at h
  cases hav : d.assertValid t with
  | some m =>
    rw [hav] at h
    simp at h
  | none =>
    rw [hav] at h
    dsimp only at h
    by_cases hcond : ("delete" = "delete"
        ∧ ((storeGet d.store key).any fun v => d.isVisible t v) = false)
    · rw [if_pos hcond] at h
      simp only [ExecResult.err.injEq] at h
      exact ⟨h.2.1.symm, h.2.2.symm, h.1.symm⟩
    · rw [if_neg hcond] at h
      rw [if_neg (by decide : ¬ ("delete" = "set"))] at h
      simp at h

/-- Witness for C10: the concrete failing `delete` of the absent key `"y"`
on `dEx`, whose error leaves `dEx` and `tEx` untouched. -/
theorem delete_error_frame_witness :
    (execCommand dEx (some tEx) "delete" ["y"]
        = .err "delete failed: key %q not found" dEx (some tEx))
    ∧ dEx = dEx ∧ some tEx = some tEx
    ∧ "delete failed: key %q not found"
        = "delete failed: key %q not found" := by
  have h : execCommand dEx (some tEx) "delete" ["y"]
      = .err "delete failed: key %q not found" dEx (some tEx) := by decide
  exact ⟨h, delete_error_frame dEx tEx "y" [] _ _ _ h⟩

end GoMvcc
